import Mathlib

/-!
Verification development for the FileUtils persistence layer
(storage-abstraction and format-dispatch facade).

The repository ships its documentation and configuration; the Python
implementation modules (`FileUtils/core`, `FileUtils/storage`,
`FileUtils/utils`) are not present in the source tree.  Every definition
below is therefore modelled from the specification's words (and the
behaviour documented in `docs/API_REFERENCE.md` / `docs/USAGE.md`), as a
shallow embedding: storage is an association list from concrete path to
encoded blob, errors are an explicit taxonomy, and each public operation
is a total Lean function.
-/

/-- Modelled from the spec: the error taxonomy of §7 (the implementation
modules that raise these are missing from the tree).  `validationError`
stands for the `ValueError`/`ConfigurationError` raised on ambiguous
paths. -/
inductive FUError where
  | notFound
  | unsupportedFormat
  | invalidPayload
  | configurationError
  | backendUnavailable
  | validationError
  deriving DecidableEq, Repr

/-- Modelled from the spec: a scalar cell value.  `datetime` and `npInt`
stand for the typed temporal / numeric-library scalar values that the
JSON/YAML encoders coerce one-way into plain strings/numbers. -/
inductive Scalar where
  | str (s : String)
  | num (n : Int)
  | datetime (y mo d h mi sec : Nat)
  | npInt (n : Int)
  deriving DecidableEq, Repr

/-- Modelled from the spec: a 2-D named-column table (one dataset). -/
structure Table where
  cols : List String
  rows : List (List Scalar)
  deriving DecidableEq, Repr

/-- Modelled from the spec: one section of a structured document tree:
a heading with a level, a text block, or a table-of-rows. -/
inductive Section where
  | heading (level : Nat) (text : String)
  | para (text : String)
  | tableRows (rows : List (List Scalar))
  deriving DecidableEq, Repr

/-- Modelled from the spec: the payload shapes accepted by the
FormatRegistry: a single table, an ordered multi-sheet map, a plain
text document, a structured document tree, or a Markdown
front-matter/body pair. -/
inductive Payload where
  | table (t : Table)
  | sheets (m : List (String × Table))
  | text (s : String)
  | doc (sections : List Section)
  | frontMatter (meta : List (String × Scalar)) (body : String)
  deriving DecidableEq, Repr

/-- Modelled from the spec: the two logical output kinds. -/
inductive Kind where
  | tabular
  | document
  deriving DecidableEq, Repr

/-- Modelled from the spec: the fixed extension set. -/
inductive FExt where
  | csv | xlsx | parquet | json | yaml | docx | md | pdf | pptx
  deriving DecidableEq, Repr

/-- Render an extension the way file names spell it. -/
def FExt.toStr : FExt → String
  | .csv => "csv"
  | .xlsx => "xlsx"
  | .parquet => "parquet"
  | .json => "json"
  | .yaml => "yaml"
  | .docx => "docx"
  | .md => "md"
  | .pdf => "pdf"
  | .pptx => "pptx"

/-- Modelled from the spec: which (kind, extension) pairs have a codec.
JSON and YAML are valid under both kinds. -/
def supported : Kind → FExt → Bool
  | .tabular, .csv => true
  | .tabular, .xlsx => true
  | .tabular, .parquet => true
  | .tabular, .json => true
  | .tabular, .yaml => true
  | .document, .json => true
  | .document, .yaml => true
  | .document, .docx => true
  | .document, .md => true
  | .document, .pdf => true
  | .document, .pptx => true
  | _, _ => false

/-- A scalar already in the format's native plain representation. -/
def Scalar.isPlain : Scalar → Bool
  | .str _ => true
  | .num _ => true
  | _ => false

/-- Modelled from the spec: one-way coercion applied at encode time:
datetimes become ISO-8601 strings, numeric-library scalars become plain
numeric literals; plain values pass through. -/
def Scalar.coerce : Scalar → Scalar
  | .str s => .str s
  | .num n => .num n
  | .datetime y mo d h mi sec =>
      .str (toString y ++ "-" ++ toString mo ++ "-" ++ toString d ++ "T"
            ++ toString h ++ ":" ++ toString mi ++ ":" ++ toString sec)
  | .npInt n => .num n

def coerceRow (r : List Scalar) : List Scalar := r.map Scalar.coerce

def coerceTable (t : Table) : Table := ⟨t.cols, t.rows.map coerceRow⟩

def coerceSection : Section → Section
  | .heading l s => .heading l s
  | .para s => .para s
  | .tableRows rows => .tableRows (rows.map coerceRow)

/-- Coercion lifted to whole payloads. -/
def coercePayload : Payload → Payload
  | .table t => .table (coerceTable t)
  | .sheets m => .sheets (m.map (fun p => (p.1, coerceTable p.2)))
  | .text s => .text s
  | .doc ss => .doc (ss.map coerceSection)
  | .frontMatter meta body =>
      .frontMatter (meta.map (fun p => (p.1, p.2.coerce))) body

def rowIsPlain (r : List Scalar) : Bool := r.all Scalar.isPlain

def tableIsPlain (t : Table) : Bool := t.rows.all rowIsPlain

def sectionIsPlain : Section → Bool
  | .heading _ _ => true
  | .para _ => true
  | .tableRows rows => rows.all rowIsPlain

/-- A payload whose every scalar is already plain (string/number):
the representative payloads of testable property 1. -/
def payloadIsPlain : Payload → Bool
  | .table t => tableIsPlain t
  | .sheets m => m.all (fun p => tableIsPlain p.2)
  | .text _ => true
  | .doc ss => ss.all sectionIsPlain
  | .frontMatter meta _ => meta.all (fun p => p.2.isPlain)

/-- Modelled from the spec: which payload shapes each codec accepts:
a single table under any tabular extension; a multi-sheet map only under
the workbook-capable `xlsx`; a plain text body or a structured tree under
any document extension; the front-matter/body split only under Markdown. -/
def validShape : Kind → FExt → Payload → Bool
  | .tabular, _, .table _ => true
  | .tabular, .xlsx, .sheets _ => true
  | .document, _, .text _ => true
  | .document, _, .doc _ => true
  | .document, .md, .frontMatter _ _ => true
  | _, _, _ => false

/-- Modelled from the spec: the stored artifact: the actual encoding
algorithms are delegated to external format libraries (a declared
non-goal), so a blob is represented self-describingly as the coerced
payload tagged with the codec that produced it. -/
structure Blob where
  kind : Kind
  ext : FExt
  payload : Payload
  deriving DecidableEq, Repr

/-- Modelled from the spec: `FormatRegistry.encode`: unknown
(kind, extension) pair is `UnsupportedFormat`, malformed payload shape is
`InvalidPayload`, otherwise the payload is coerced and rendered. -/
def encode (k : Kind) (e : FExt) (p : Payload) : Except FUError Blob :=
  if supported k e then
    if validShape k e p then .ok ⟨k, e, coercePayload p⟩
    else .error .invalidPayload
  else .error .unsupportedFormat

/-- Modelled from the spec: `FormatRegistry.decode`: checks the codec key
and returns the stored (already coerced) payload. -/
def decode (k : Kind) (e : FExt) (b : Blob) : Except FUError Payload :=
  if supported k e then
    if b.kind = k ∧ b.ext = e then .ok b.payload
    else .error .invalidPayload
  else .error .unsupportedFormat

/-- Byte-wise (code-point) lexicographic strict comparison on character
lists: the order under which the TimestampResolver picks "the
lexicographically greatest" matching entry. -/
def lexLtB : List Char → List Char → Bool
  | [], [] => false
  | [], _ :: _ => true
  | _ :: _, [] => false
  | a :: as, b :: bs =>
    if a.toNat < b.toNat then true
    else if b.toNat < a.toNat then false
    else lexLtB as bs

/-- Lexicographic comparison lifted to `String`. -/
def strLtB (s t : String) : Bool := lexLtB s.data t.data

/-- Greatest element of a list of names under `strLtB`; `none` on the
empty list. -/
def lexMax : List String → Option String
  | [] => none
  | s :: rest =>
    match lexMax rest with
    | none => some s
    | some t => if strLtB s t then some t else some s

/-- Modelled from the spec: the storage backend's visible state (the
`LocalBackend`/`AzureStorage` modules are missing from the tree): an
association list from concrete path to stored blob, most recent write
first. -/
abbrev Storage := List (String × Blob)

/-- The backend's listing: every stored name. -/
def listingOf (σ : Storage) : List String := σ.map Prod.fst

/-- Read the blob at a concrete path: the most recent write wins. -/
def readStore : Storage → String → Option Blob
  | [], _ => none
  | (q, b) :: rest, p => if q = p then some b else readStore rest p

/-- Write a blob at a concrete path (silently overwriting). -/
def writeStore (σ : Storage) (p : String) (b : Blob) : Storage := (p, b) :: σ

/-- Does the entry match the discovery pattern to the base name and
extension, i.e. start with the base name and an underscore and end with a
dot and the extension. -/
def matchesTs (base ext entry : String) : Bool :=
  (base ++ "_").data.isPrefixOf entry.data
    && ("." ++ ext).data.isSuffixOf entry.data

/-- All listing entries matching the timestamped-name pattern. -/
def timestampMatches (base ext : String) (listing : List String) :
    List String :=
  listing.filter (matchesTs base ext)

/-- The logical (untimestamped) file name. -/
def logicalName (base ext : String) : String := base ++ "." ++ ext

/-- Modelled from the spec: `TimestampResolver.resolve` on the load side:
exact logical name when present in the listing, otherwise the
lexicographically greatest entry matching the timestamped-name pattern,
otherwise nothing (`NotFound`). -/
def resolveLoad (base ext : String) (listing : List String) :
    Option String :=
  if logicalName base ext ∈ listing then some (logicalName base ext)
  else lexMax (timestampMatches base ext listing)

/-- Modelled from the spec: the shared load path every load entry point
uses: resolve the concrete name, read the bytes, decode under the entry
point's kind and extension. -/
def loadWithDiscovery (k : Kind) (base : String) (e : FExt) (σ : Storage) :
    Except FUError Payload :=
  match resolveLoad base e.toStr (listingOf σ) with
  | none => .error .notFound
  | some n =>
    match readStore σ n with
    | none => .error .notFound
    | some b => decode k e b

/-- Modelled from the spec: `load_single_file` (tabular load; the
extension is inferred from the file name's suffix). -/
def load_single_file (base : String) (e : FExt) (σ : Storage) :
    Except FUError Payload :=
  loadWithDiscovery .tabular base e σ

/-- Modelled from the spec: `load_json` (document-kind JSON load). -/
def load_json (base : String) (σ : Storage) : Except FUError Payload :=
  loadWithDiscovery .document base .json σ

/-- Modelled from the spec: `load_yaml` (document-kind YAML load). -/
def load_yaml (base : String) (σ : Storage) : Except FUError Payload :=
  loadWithDiscovery .document base .yaml σ

/-- Modelled from the spec: `load_document_from_storage`. -/
def load_document_from_storage (base : String) (e : FExt) (σ : Storage) :
    Except FUError Payload :=
  loadWithDiscovery .document base e σ

/-- The four load entry points of claim C1. -/
inductive LoadEntry where
  | singleFile | json | yaml | document
  deriving DecidableEq, Repr

/-- The logical kind each entry point decodes under. -/
def LoadEntry.kind : LoadEntry → Kind
  | .singleFile => .tabular
  | _ => .document

/-- The extension each entry point actually uses (`load_json` and
`load_yaml` fix their own). -/
def LoadEntry.eff : LoadEntry → FExt → FExt
  | .json, _ => .json
  | .yaml, _ => .yaml
  | _, e => e

/-- Dispatch to the four load entry points. -/
def runLoad : LoadEntry → String → FExt → Storage → Except FUError Payload
  | .singleFile, base, e, σ => load_single_file base e σ
  | .json, base, _, σ => load_json base σ
  | .yaml, base, _, σ => load_yaml base σ
  | .document, base, e, σ => load_document_from_storage base e σ

/-- A sample stored document blob (for concrete evaluations). -/
def sampleBlob (s : String) : Blob := ⟨.document, .json, .text s⟩

/-- A sample backend state holding two timestamped versions of the
logical file `report.json`. -/
def sampleStorage : Storage :=
  [("report_20240101_000000.json", sampleBlob "v1"),
   ("report_20240202_120000.json", sampleBlob "v2")]

/-- Fixed-width base-10 digit list of a number, most significant first
(the width-`w` zero-padded rendering used by the timestamp format). -/
def padNat : Nat → Nat → List Nat
  | 0, _ => []
  | w+1, n => padNat w (n / 10) ++ [n % 10]

/-- Modelled from the spec: the generation timestamp embedded in saved
file names (`yyyymmdd_HHMMSS`). -/
structure Timestamp where
  year : Nat
  month : Nat
  day : Nat
  hour : Nat
  minute : Nat
  second : Nat
  deriving DecidableEq, Repr

/-- The component bounds the fixed-width rendering assumes (every real
calendar timestamp satisfies them). -/
def Timestamp.inRange (t : Timestamp) : Prop :=
  t.year < 10000 ∧ t.month < 100 ∧ t.day < 100 ∧ t.hour < 100 ∧
    t.minute < 100 ∧ t.second < 100

instance (t : Timestamp) : Decidable t.inRange := by
  unfold Timestamp.inRange
  infer_instance

/-- The characters of the `yyyymmdd_HHMMSS` rendering. -/
def tsData (t : Timestamp) : List Char :=
  (padNat 4 t.year).map Nat.digitChar ++
    ((padNat 2 t.month).map Nat.digitChar ++
      ((padNat 2 t.day).map Nat.digitChar ++
        (['_'] ++
          ((padNat 2 t.hour).map Nat.digitChar ++
            ((padNat 2 t.minute).map Nat.digitChar ++
              (padNat 2 t.second).map Nat.digitChar)))))

/-- The `yyyymmdd_HHMMSS` timestamp string. -/
def tsString (t : Timestamp) : String := ⟨tsData t⟩

/-- Modelled from the spec: `TimestampResolver` on the save side: with
timestamping enabled (the default) the concrete name embeds the
generation timestamp; with it disabled the concrete name is the logical
name. -/
def saveName (base ext : String) (withTs : Bool) (t : Timestamp) : String :=
  if withTs then (base ++ "_") ++ (tsString t ++ ("." ++ ext))
  else logicalName base ext

/-- Modelled from the spec: the per-artifact concrete file name of a
multi-artifact save: the call's base name, an underscore, the artifact
name, then the usual timestamp suffix handling and the extension. -/
def artifactPath (base : String) (e : FExt) (withTs : Bool) (t : Timestamp)
    (k : String) : String :=
  (base ++ "_") ++
    (k ++ (if withTs then "_" ++ (tsString t ++ ("." ++ e.toStr))
           else "." ++ e.toStr))

/-- Modelled from the spec: one manifest record: artifact name, resolved
concrete path, extension, generation timestamp. -/
structure ManifestEntry where
  artifact : String
  path : String
  fext : FExt
  generatedAt : Timestamp
  deriving DecidableEq, Repr

/-- Modelled from the spec: the manifest: a top-level list preserving
save order. -/
abbrev Manifest := List ManifestEntry

/-- The persisted manifest files, keyed by their own concrete path. -/
abbrev ManifestStore := List (String × Manifest)

/-- Look a manifest up by its path. -/
def lookupManifest : ManifestStore → String → Option Manifest
  | [], _ => none
  | (q, m) :: rest, p => if q = p then some m else lookupManifest rest p

/-- Modelled from the spec: write one concrete file per named payload
(tabular kind) and build the manifest records, failing fast on a codec
error. -/
def saveArtifacts (base : String) (e : FExt) (withTs : Bool)
    (t : Timestamp) :
    List (String × Payload) → Storage → Except FUError (Storage × Manifest)
  | [], σ => .ok (σ, [])
  | (k, p) :: rest, σ =>
    match encode .tabular e p with
    | .error err => .error err
    | .ok b =>
      match saveArtifacts base e withTs t rest
          (writeStore σ (artifactPath base e withTs t k) b) with
      | .error err => .error err
      | .ok (σ2, man) =>
        .ok (σ2, ⟨k, artifactPath base e withTs t k, e, t⟩ :: man)

/-- The concrete path of the side-car metadata file. -/
def metadataPath (base : String) (withTs : Bool) (t : Timestamp) : String :=
  saveName (base ++ "_metadata") "json" withTs t

/-- Modelled from the spec: `save_with_metadata` / `save_many`: saves
every named payload, then persists one manifest file recording, for every
artifact, its resolved path, extension and generation timestamp; returns
the updated stores and the metadata path. -/
def save_with_metadata (named : List (String × Payload)) (base : String)
    (e : FExt) (withTs : Bool) (t : Timestamp) (σ : Storage)
    (ms : ManifestStore) :
    Except FUError (Storage × ManifestStore × String) :=
  match saveArtifacts base e withTs t named σ with
  | .error err => .error err
  | .ok (σ2, man) =>
    .ok (σ2, (metadataPath base withTs t, man) :: ms, metadataPath base withTs t)

/-- Modelled from the spec: load one referenced artifact by its exact
manifest path (manifest entries are exact paths, never re-resolved). -/
def loadArtifact (σ : Storage) (en : ManifestEntry) : Except FUError Payload :=
  match readStore σ en.path with
  | none => .error .notFound
  | some b => decode .tabular en.fext b

/-- Modelled from the spec: `load_from_metadata` / `load_many`: reads the
manifest, then loads each referenced artifact independently; a failing
artifact yields an error marker under its key rather than aborting the
whole load. -/
def load_from_metadata (ms : ManifestStore) (σ : Storage) (mpath : String) :
    Except FUError (List (String × Except FUError Payload)) :=
  match lookupManifest ms mpath with
  | none => .error .notFound
  | some man => .ok (man.map (fun en => (en.artifact, loadArtifact σ en)))

/-- Concrete multi-artifact input used by witnesses. -/
def c3named : List (String × Payload) :=
  [("a", .table ⟨["x"], [[.num 1]]⟩), ("b", .table ⟨["y"], [[.num 2]]⟩)]

/-- Concrete fixtures for the partial-failure witness: a manifest
referencing artifacts `a` and `b`, a store holding only `a`. -/
def c5t : Timestamp := ⟨2024, 1, 1, 0, 0, 0⟩

def c5man : Manifest := [⟨"a", "a.csv", .csv, c5t⟩, ⟨"b", "b.csv", .csv, c5t⟩]

def c5store : Storage :=
  [("a.csv", ⟨.tabular, .csv, .table ⟨["x"], [[.num 1]]⟩⟩)]

def c5ms : ManifestStore := [("meta.json", c5man)]

/-- Modelled from the spec: the backend choice fixed at construction. -/
inductive StorageType where
  | localStorage
  | azure
  deriving DecidableEq, Repr

/-- Modelled from the spec: whether remote connectivity succeeds at
construction time. -/
inductive Connectivity where
  | up
  | failed
  deriving DecidableEq, Repr

/-- Modelled from the spec: the constructed facade records its backend
choice once. -/
structure Facade where
  backend : StorageType
  deriving DecidableEq, Repr

/-- Modelled from the spec: the facade constructor (`FileUtils(...)`,
missing from the tree): the local backend always constructs; the remote
backend fails fast with the connection error when connectivity fails
— it never silently degrades to a local-backend instance. -/
def mkFileUtils : StorageType → Connectivity → Except FUError Facade
  | .localStorage, _ => .ok ⟨.localStorage⟩
  | .azure, .up => .ok ⟨.azure⟩
  | .azure, .failed => .error .backendUnavailable

/-- Modelled from the spec §9: the caller-level try/except fallback
pattern: try the remote-backed facade, and on the connection error
construct a local-backed one instead. -/
def callerFallback (conn : Connectivity) : Except FUError Facade :=
  match mkFileUtils .azure conn with
  | .ok f => .ok f
  | .error _ => mkFileUtils .localStorage conn

/-- Modelled from the spec: the remote retry policy read from
`storage.azure.retry_settings` in `config/default_config.yaml`. -/
structure RetryPolicy where
  max_retries : Nat
  retry_delay : Nat
  max_delay : Nat
  deriving DecidableEq, Repr

/-- Modelled from the spec: one attempt of the underlying object-storage
client: success, a transient-class failure (timeout, throttling), or a
non-transient failure (auth, not-found). -/
inductive OpOutcome (α : Type) where
  | success (a : α)
  | transient
  | permanent (e : FUError)

/-- Modelled from the spec: the retry loop of the remote backend: a
transient failure is retried while retry budget remains, doubling the
backoff delay and capping it at the maximum; on exhaustion the last
transient error is wrapped as `BackendUnavailable`; a non-transient
failure propagates immediately.  Returns the result, the number of
retries performed and the list of backoff delays waited. -/
def retryLoop {α : Type} (client : Nat → OpOutcome α) (maxDelay : Nat) :
    Nat → Nat → Nat → Except FUError α × Nat × List Nat
  | fuel, attempt, delay =>
    match client attempt with
    | .success a => (.ok a, 0, [])
    | .permanent e => (.error e, 0, [])
    | .transient =>
      match fuel with
      | 0 => (.error .backendUnavailable, 0, [])
      | f + 1 =>
        let r := retryLoop client maxDelay f (attempt + 1) (delay * 2)
        (r.1, r.2.1 + 1, min delay maxDelay :: r.2.2)

/-- Modelled from the spec: run one remote operation under the policy. -/
def runWithRetry {α : Type} (pol : RetryPolicy) (client : Nat → OpOutcome α) :
    Except FUError α × Nat × List Nat :=
  retryLoop client pol.max_delay pol.max_retries 0 pol.retry_delay

/-- Does a file name contain a directory separator. -/
def containsSep (s : String) : Bool :=
  s.data.contains '/' || s.data.contains (Char.ofNat 92)

/-- Modelled from the spec: `PathResolver.resolve`: a `sub_path` together
with a file name that itself contains a separator is ambiguous and is a
validation error, never a silent merge; otherwise pure path
concatenation. -/
def resolvePath (roleDir : String) (subPath : Option String)
    (fileName : String) : Except FUError String :=
  match subPath with
  | some sp =>
    if containsSep fileName then .error .validationError
    else .ok (roleDir ++ "/" ++ (sp ++ "/" ++ fileName))
  | none => .ok (roleDir ++ "/" ++ fileName)

/-- Modelled from the spec: a facade save call: resolve the path, then
write the encoded blob. -/
def saveToStorage (σ : Storage) (roleDir : String) (subPath : Option String)
    (fileName : String) (b : Blob) : Except FUError Storage :=
  match resolvePath roleDir subPath fileName with
  | .error err => .error err
  | .ok p => .ok (writeStore σ p b)

/-- Modelled from the spec: a facade load call: resolve the path, then
read the blob there. -/
def loadFromPath (σ : Storage) (roleDir : String) (subPath : Option String)
    (fileName : String) : Except FUError Blob :=
  match resolvePath roleDir subPath fileName with
  | .error err => .error err
  | .ok p =>
    match readStore σ p with
    | none => .error .notFound
    | some b => .ok b

/-- Look a directory role up in the role-to-path mapping. -/
def lookupRole : List (String × String) → String → Option String
  | [], _ => none
  | (r, d) :: rest, role => if r = role then some d else lookupRole rest role

/-- Modelled from the spec: the facade state: the directory-role-to-path
mapping fixed at construction, the configured directory-structure list
(which `create_directory` extends, per `docs/USAGE.md`), and the two
stores. -/
structure FUState where
  roleMap : List (String × String)
  knownDirs : List String
  store : Storage
  manifests : ManifestStore

/-- Resolve a directory role against the facade state. -/
def resolveRole (st : FUState) (role : String) : Option String :=
  lookupRole st.roleMap role

/-- The public operations of claim C9. -/
inductive FOp where
  | saveOp (role : String) (subPath : Option String) (fileName : String)
      (b : Blob)
  | loadOp (role : String) (subPath : Option String) (fileName : String)
  | saveManyOp (named : List (String × Payload)) (base : String) (e : FExt)
      (withTs : Bool) (t : Timestamp)
  | loadManyOp (mpath : String)
  | createDirectory (d : String)

/-- Modelled from the spec: the state transition of each public
operation: loads are pure, saves extend the stores, and
`create_directory` appends the new directory to the configured
directory-structure list — none of them touches the role mapping. -/
def applyOp (st : FUState) : FOp → FUState
  | .saveOp role sp fn b =>
    match resolveRole st role with
    | none => st
    | some dir =>
      match saveToStorage st.store dir sp fn b with
      | .error _ => st
      | .ok σ2 => ⟨st.roleMap, st.knownDirs, σ2, st.manifests⟩
  | .loadOp _ _ _ => st
  | .saveManyOp named base e withTs t =>
    match save_with_metadata named base e withTs t st.store st.manifests with
    | .error _ => st
    | .ok (σ2, ms2, _) => ⟨st.roleMap, st.knownDirs, σ2, ms2⟩
  | .loadManyOp _ => st
  | .createDirectory d => ⟨st.roleMap, st.knownDirs ++ [d], st.store, st.manifests⟩

/-- Modelled from the spec (`docs/USAGE.md` troubleshooting): a column
label of a DataFrame: single-level, or a MultiIndex tuple of level
names. -/
inductive ColLabel where
  | single (name : String)
  | multi (levels : List String)
  deriving DecidableEq, Repr

/-- Is the label single-level. -/
def ColLabel.isSingle : ColLabel → Bool
  | .single _ => true
  | _ => false

/-- Modelled from the spec: flatten a MultiIndex label into one
single-level name by joining the level names. -/
def flattenLabel : ColLabel → String
  | .single n => n
  | .multi ls => String.intercalate "_" ls

/-- A DataFrame whose columns may form a MultiIndex. -/
structure DFrame where
  cols : List ColLabel
  rows : List (List Scalar)
  deriving DecidableEq, Repr

/-- Flatten every column label, keeping the data. -/
def flattenCols (df : DFrame) : Table := ⟨df.cols.map flattenLabel, df.rows⟩

/-- Modelled from the spec: `save_data_to_storage` for the XLSX format:
MultiIndex columns are flattened automatically before encoding (instead
of the `NotImplementedError` the underlying writer would raise). -/
def save_data_to_storage_xlsx (df : DFrame) (σ : Storage) (p : String) :
    Except FUError Storage :=
  match encode .tabular .xlsx (.table (flattenCols df)) with
  | .error err => .error err
  | .ok b => .ok (writeStore σ p b)

/-! ### Order lemmas for the lexicographic comparison -/

theorem lexLtB_irrefl (l : List Char) : lexLtB l l = false := by
  induction l with
  | nil => rfl
  | cons a as ih => simp [lexLtB, ih]

theorem lexLtB_asymm (a b : List Char) (h : lexLtB a b = true) : lexLtB b a = false := by
  induction a generalizing b with
  | nil => cases b with
    | nil => simp [lexLtB] at h
    | cons z zs => simp [lexLtB]
  | cons x xs ih => cases b with
    | nil => simp [lexLtB] at h
    | cons z zs =>
      simp only [lexLtB] at h ⊢
      by_cases h1 : x.toNat < z.toNat
      · have h2 : ¬ z.toNat < x.toNat := by omega
        simp [h1, h2]
      · by_cases h2 : z.toNat < x.toNat
        · simp [h1, h2] at h
        · simp only [if_neg h1, if_neg h2] at h ⊢
          exact ih zs h

theorem lexLtB_neg_trans (a b c : List Char) (hab : lexLtB a b = false)
    (hbc : lexLtB b c = false) : lexLtB a c = false := by
  induction a generalizing b c with
  | nil =>
    cases b with
    | nil =>
      cases c with
      | nil => rfl
      | cons z zs => simp [lexLtB] at hbc
    | cons y ys => simp [lexLtB] at hab
  | cons x xs ih =>
    cases b with
    | nil =>
      cases c with
      | nil => simp [lexLtB]
      | cons z zs => simp [lexLtB] at hbc
    | cons y ys =>
      cases c with
      | nil => simp [lexLtB]
      | cons z zs =>
        simp only [lexLtB] at hab hbc ⊢
        by_cases h3 : x.toNat < y.toNat
        · simp [h3] at hab
        · by_cases h5 : y.toNat < z.toNat
          · simp [h5] at hbc
          · by_cases h1 : x.toNat < z.toNat
            · omega
            · by_cases h2 : z.toNat < x.toNat
              · simp [h1, h2]
              · by_cases h4 : y.toNat < x.toNat
                · exfalso; omega
                · by_cases h6 : z.toNat < y.toNat
                  · omega
                  · simp only [if_neg h3, if_neg h4] at hab
                    simp only [if_neg h5, if_neg h6] at hbc
                    simp only [if_neg h1, if_neg h2]
                    exact ih ys zs hab hbc

theorem strLtB_irrefl (s : String) : strLtB s s = false := lexLtB_irrefl s.data

theorem strLtB_asymm (s t : String) (h : strLtB s t = true) : strLtB t s = false :=
  lexLtB_asymm s.data t.data h

theorem strLtB_neg_trans (s t u : String) (h1 : strLtB s t = false)
    (h2 : strLtB t u = false) : strLtB s u = false :=
  lexLtB_neg_trans s.data t.data u.data h1 h2

theorem lexMax_ne_none (s : String) (rest : List String) :
    lexMax (s :: rest) ≠ none := by
  cases h : lexMax rest <;> simp [lexMax, h]
  split <;> simp

theorem lexMax_mem (l : List String) (m : String) (h : lexMax l = some m) :
    m ∈ l := by
  induction l generalizing m with
  | nil => simp [lexMax] at h
  | cons s rest ih =>
    cases hr : lexMax rest with
    | none =>
      simp only [lexMax, hr] at h
      injection h with hm
      rw [← hm]
      exact List.mem_cons_self s rest
    | some t =>
      simp only [lexMax, hr] at h
      by_cases hst : strLtB s t = true
      · rw [if_pos hst] at h
        injection h with hm
        rw [← hm]
        exact List.mem_cons_of_mem s (ih t hr)
      · rw [if_neg hst] at h
        injection h with hm
        rw [← hm]
        exact List.mem_cons_self s rest

theorem lexMax_greatest (l : List String) (m : String) (h : lexMax l = some m)
    (x : String) (hx : x ∈ l) : strLtB m x = false := by
  induction l generalizing m with
  | nil => simp at hx
  | cons s rest ih =>
    cases hr : lexMax rest with
    | none =>
      simp only [lexMax, hr] at h
      injection h with hm
      cases rest with
      | nil =>
        have hxs : x = s := by simpa using hx
        rw [hxs, ← hm]
        exact strLtB_irrefl s
      | cons a as => exact absurd hr (lexMax_ne_none a as)
    | some t =>
      simp only [lexMax, hr] at h
      by_cases hst : strLtB s t = true
      · rw [if_pos hst] at h
        injection h with hm
        rcases List.mem_cons.mp hx with hxs | hxr
        · rw [hxs, ← hm]
          exact strLtB_asymm s t hst
        · rw [← hm]
          exact ih t hr hxr
      · rw [if_neg hst] at h
        injection h with hm
        rcases List.mem_cons.mp hx with hxs | hxr
        · rw [hxs, ← hm]
          exact strLtB_irrefl s
        · rw [← hm]
          have hst2 : strLtB s t = false := by
            revert hst
            cases strLtB s t <;> simp
          exact strLtB_neg_trans s t x hst2 (ih t hr hxr)

theorem loadWithDiscovery_resolve_none (k : Kind) (base : String) (e : FExt)
    (σ : Storage) (h : resolveLoad base e.toStr (listingOf σ) = none) :
    loadWithDiscovery k base e σ = .error .notFound := by
  simp [loadWithDiscovery, h]

theorem loadWithDiscovery_resolve_some (k : Kind) (base : String) (e : FExt)
    (σ : Storage) (m : String)
    (h : resolveLoad base e.toStr (listingOf σ) = some m) :
    loadWithDiscovery k base e σ =
      (readStore σ m).elim (Except.error FUError.notFound) (decode k e) := by
  simp only [loadWithDiscovery, h]
  cases readStore σ m <;> rfl

/-- Claim C1: for every load entry point (`load_single_file`, `load_json`,
`load_yaml`, `load_document_from_storage`) and every backend listing: if
the requested logical file name exists verbatim in the listing, the load
reads exactly that file; otherwise it reads the lexicographically greatest
listing entry matching the timestamped pattern to the base name and the
extension; and if no entry matches, the load fails with the
`NotFound`-class error. -/
theorem C1_load_resolution (ep : LoadEntry) (base : String) (e : FExt)
    (σ : Storage) :
    (logicalName base (ep.eff e).toStr ∈ listingOf σ →
      resolveLoad base (ep.eff e).toStr (listingOf σ) =
        some (logicalName base (ep.eff e).toStr)) ∧
    (logicalName base (ep.eff e).toStr ∉ listingOf σ →
      ∀ m, resolveLoad base (ep.eff e).toStr (listingOf σ) = some m →
        m ∈ timestampMatches base (ep.eff e).toStr (listingOf σ) ∧
        ∀ x ∈ timestampMatches base (ep.eff e).toStr (listingOf σ),
          strLtB m x = false) ∧
    (logicalName base (ep.eff e).toStr ∉ listingOf σ →
      timestampMatches base (ep.eff e).toStr (listingOf σ) = [] →
      resolveLoad base (ep.eff e).toStr (listingOf σ) = none) ∧
    (resolveLoad base (ep.eff e).toStr (listingOf σ) = none →
      runLoad ep base e σ = .error .notFound) ∧
    (∀ m, resolveLoad base (ep.eff e).toStr (listingOf σ) = some m →
      runLoad ep base e σ =
        (readStore σ m).elim (Except.error FUError.notFound)
          (decode ep.kind (ep.eff e))) := by
  refine ⟨?_, ?_, ?_, ?_, ?_⟩
  · intro h
    simp [resolveLoad, h]
  · intro h m hm
    rw [resolveLoad, if_neg h] at hm
    exact ⟨lexMax_mem _ _ hm, fun x hx => lexMax_greatest _ _ hm x hx⟩
  · intro h hm
    rw [resolveLoad, if_neg h, hm]
    rfl
  · intro h
    cases ep
    · exact loadWithDiscovery_resolve_none _ _ _ _ h
    · exact loadWithDiscovery_resolve_none _ _ _ _ h
    · exact loadWithDiscovery_resolve_none _ _ _ _ h
    · exact loadWithDiscovery_resolve_none _ _ _ _ h
  · intro m hm
    cases ep
    · exact loadWithDiscovery_resolve_some _ _ _ _ _ hm
    · exact loadWithDiscovery_resolve_some _ _ _ _ _ hm
    · exact loadWithDiscovery_resolve_some _ _ _ _ _ hm
    · exact loadWithDiscovery_resolve_some _ _ _ _ _ hm

/-- Claim C1 witness: on a concrete listing holding two timestamped
variants and no exact `report.json`, `load_json` returns the contents of
the lexicographically greatest one. -/
theorem C1_load_resolution_witness :
    runLoad LoadEntry.json "report" FExt.json sampleStorage =
      Except.ok (Payload.text "v2") := by
  have h :=
    (C1_load_resolution LoadEntry.json "report" FExt.json sampleStorage).2.2.2.2
  have hm : resolveLoad "report" "json" (listingOf sampleStorage) =
      some "report_20240202_120000.json" := by decide
  rw [h _ hm]
  rfl

theorem map_id_of_all {α : Type} (f : α → α) (p : α → Bool) (l : List α)
    (hf : ∀ a, p a = true → f a = a) (h : l.all p = true) : l.map f = l := by
  induction l with
  | nil => rfl
  | cons a as ih =>
    simp only [List.all_cons, Bool.and_eq_true] at h
    simp [hf a h.1, ih h.2]

theorem coerce_plain (s : Scalar) (h : s.isPlain = true) : s.coerce = s := by
  cases s with
  | str s => rfl
  | num n => rfl
  | datetime y mo d h2 mi sec => simp [Scalar.isPlain] at h
  | npInt n => simp [Scalar.isPlain] at h

theorem coerceRow_plain (r : List Scalar) (h : rowIsPlain r = true) :
    coerceRow r = r :=
  map_id_of_all Scalar.coerce Scalar.isPlain r coerce_plain h

theorem coerceTable_plain (t : Table) (h : tableIsPlain t = true) :
    coerceTable t = t := by
  cases t with
  | mk cols rows =>
    simp only [tableIsPlain] at h
    simp only [coerceTable, Table.mk.injEq, true_and]
    exact map_id_of_all coerceRow rowIsPlain rows coerceRow_plain h

theorem coerceSection_plain (s : Section) (h : sectionIsPlain s = true) :
    coerceSection s = s := by
  cases s with
  | heading l t => rfl
  | para t => rfl
  | tableRows rows =>
    simp only [sectionIsPlain] at h
    simp only [coerceSection, Section.tableRows.injEq]
    exact map_id_of_all coerceRow rowIsPlain rows coerceRow_plain h

theorem coercePayload_plain (p : Payload) (h : payloadIsPlain p = true) :
    coercePayload p = p := by
  cases p with
  | table t =>
    simp only [payloadIsPlain] at h
    simp [coercePayload, coerceTable_plain t h]
  | sheets m =>
    simp only [payloadIsPlain] at h
    simp only [coercePayload, Payload.sheets.injEq]
    refine map_id_of_all _ (fun pr => tableIsPlain pr.2) m ?_ h
    intro pr hpr
    cases pr with
    | mk nm tb => simp [coerceTable_plain tb hpr]
  | text s => rfl
  | doc ss =>
    simp only [payloadIsPlain] at h
    simp only [coercePayload, Payload.doc.injEq]
    exact map_id_of_all coerceSection sectionIsPlain ss coerceSection_plain h
  | frontMatter meta body =>
    simp only [payloadIsPlain] at h
    simp only [coercePayload, Payload.frontMatter.injEq, and_true]
    refine map_id_of_all _ (fun pr => pr.2.isPlain) meta ?_ h
    intro pr hpr
    cases pr with
    | mk nm sc => simp [coerce_plain sc hpr]

/-- Claim C2: for every supported (kind, extension) pair and every
representative payload (single table, multi-sheet map, plain document
text, structured document tree, front-matter+body pair — all with the
scalar values already in the format's plain representation), decoding the
encoding returns the payload unchanged. -/
theorem C2_round_trip (k : Kind) (e : FExt) (p : Payload)
    (hs : supported k e = true) (hv : validShape k e p = true)
    (hp : payloadIsPlain p = true) :
    (encode k e p).bind (decode k e) = .ok p := by
  simp only [encode, hs, hv, if_true, if_pos, Except.bind]
  simp only [decode, hs, if_true]
  simp [coercePayload_plain p hp]

/-- Claim C2 witness: the round trip at a concrete single-table CSV
payload. -/
theorem C2_round_trip_witness :
    (encode Kind.tabular FExt.csv
        (Payload.table ⟨["a"], [[Scalar.num 1]]⟩)).bind
      (decode Kind.tabular FExt.csv) =
      Except.ok (Payload.table ⟨["a"], [[Scalar.num 1]]⟩) :=
  C2_round_trip Kind.tabular FExt.csv _ (by decide) (by decide) (by decide)

/-! ### Timestamped save-name lemmas -/

theorem padNat_length (w n : Nat) : (padNat w n).length = w := by
  induction w generalizing n with
  | zero => rfl
  | succ w ih => simp [padNat, ih]

theorem padNat_all_lt (w n : Nat) (d : Nat) (hd : d ∈ padNat w n) : d < 10 := by
  induction w generalizing n with
  | zero => simp [padNat] at hd
  | succ w ih =>
    simp only [padNat, List.mem_append, List.mem_singleton] at hd
    rcases hd with h | h
    · exact ih (n / 10) h
    · subst h; exact Nat.mod_lt n (by norm_num)

theorem padNat_inj (w n m : Nat) (hn : n < 10 ^ w) (hm : m < 10 ^ w)
    (h : padNat w n = padNat w m) : n = m := by
  induction w generalizing n m with
  | zero =>
    simp [pow_zero] at hn hm
    omega
  | succ w ih =>
    simp only [padNat] at h
    have hlen : ([n % 10] : List Nat).length = ([m % 10] : List Nat).length := rfl
    obtain ⟨h1, h2⟩ := List.append_inj' h hlen
    have hd : n % 10 = m % 10 := by simpa using h2
    have hn2 : n / 10 < 10 ^ w := by
      rw [pow_succ] at hn
      omega
    have hm2 : m / 10 < 10 ^ w := by
      rw [pow_succ] at hm
      omega
    have := ih (n / 10) (m / 10) hn2 hm2 h1
    omega

theorem digitChar_inj_lt (a b : Nat) (ha : a < 10) (hb : b < 10)
    (h : Nat.digitChar a = Nat.digitChar b) : a = b := by
  interval_cases a <;> interval_cases b <;>
    first
    | rfl
    | (exfalso; revert h; decide)

theorem map_digitChar_inj (xs ys : List Nat) (hx : ∀ d ∈ xs, d < 10)
    (hy : ∀ d ∈ ys, d < 10)
    (h : xs.map Nat.digitChar = ys.map Nat.digitChar) : xs = ys := by
  induction xs generalizing ys with
  | nil => cases ys with
    | nil => rfl
    | cons b bs => simp at h
  | cons a as ih =>
    cases ys with
    | nil => simp at h
    | cons b bs =>
      simp only [List.map_cons, List.cons.injEq] at h
      have hab := digitChar_inj_lt a b (hx a (by simp)) (hy b (by simp)) h.1
      have := ih bs (fun d hd => hx d (List.mem_cons_of_mem a hd)) (fun d hd => hy d (List.mem_cons_of_mem b hd)) h.2
      simp [hab, this]

theorem padChunk_inj (w n m : Nat) (hn : n < 10 ^ w) (hm : m < 10 ^ w)
    (h : (padNat w n).map Nat.digitChar = (padNat w m).map Nat.digitChar) :
    n = m :=
  padNat_inj w n m hn hm
    (map_digitChar_inj _ _ (padNat_all_lt w n) (padNat_all_lt w m) h)

theorem tsData_length (t : Timestamp) : (tsData t).length = 15 := by
  simp [tsData, padNat_length]

theorem tsString_inj (t1 t2 : Timestamp) (h1 : t1.inRange) (h2 : t2.inRange)
    (h : tsString t1 = tsString t2) : t1 = t2 := by
  have hd : tsData t1 = tsData t2 := congrArg String.data h
  simp only [tsData] at hd
  obtain ⟨hy, hd⟩ := List.append_inj hd (by simp [padNat_length])
  obtain ⟨hmo, hd⟩ := List.append_inj hd (by simp [padNat_length])
  obtain ⟨hda, hd⟩ := List.append_inj hd (by simp [padNat_length])
  obtain ⟨-, hd⟩ := List.append_inj hd (by simp)
  obtain ⟨hh, hd⟩ := List.append_inj hd (by simp [padNat_length])
  obtain ⟨hmi, hs⟩ := List.append_inj hd (by simp [padNat_length])
  have ey := padChunk_inj 4 _ _ h1.1 h2.1 hy
  have emo := padChunk_inj 2 _ _ h1.2.1 h2.2.1 hmo
  have eda := padChunk_inj 2 _ _ h1.2.2.1 h2.2.2.1 hda
  have eh := padChunk_inj 2 _ _ h1.2.2.2.1 h2.2.2.2.1 hh
  have emi := padChunk_inj 2 _ _ h1.2.2.2.2.1 h2.2.2.2.2.1 hmi
  have es := padChunk_inj 2 _ _ h1.2.2.2.2.2 h2.2.2.2.2.2 hs
  cases t1
  cases t2
  simp_all

theorem saveName_inj (base ext : String) (t1 t2 : Timestamp)
    (h1 : t1.inRange) (h2 : t2.inRange)
    (h : saveName base ext true t1 = saveName base ext true t2) : t1 = t2 := by
  simp only [saveName, if_pos] at h
  have hd := congrArg String.data h
  simp only [String.data_append] at hd
  have hd2 := List.append_cancel_left hd
  obtain ⟨hts, -⟩ := List.append_inj hd2 (by simp [tsData_length, tsString])
  exact tsString_inj t1 t2 h1 h2 (by
    apply congrArg String.mk
    simpa [tsString] using hts)

/-- Claim C4: with timestamping enabled (the default) the concrete file
name equals the base name, an underscore, the `yyyymmdd_HHMMSS` stamp, a
dot and the extension, so saving the same logical name at two different
generation times yields two distinct concrete files; with timestamping
disabled the concrete name equals the logical name. -/
theorem C4_save_naming (base ext : String) (t1 t2 : Timestamp)
    (h1 : t1.inRange) (h2 : t2.inRange) :
    saveName base ext true t1 =
      (base ++ "_") ++ (tsString t1 ++ ("." ++ ext)) ∧
    saveName base ext false t1 = logicalName base ext ∧
    (t1 ≠ t2 → saveName base ext true t1 ≠ saveName base ext true t2) := by
  refine ⟨rfl, rfl, ?_⟩
  intro hne heq
  exact hne (saveName_inj base ext t1 t2 h1 h2 heq)

/-- Claim C4 witness: two concrete generation times give two distinct
concrete names for the logical file `report.json`. -/
theorem C4_save_naming_witness :
    saveName "report" "json" true ⟨2024, 1, 1, 0, 0, 0⟩ ≠
      saveName "report" "json" true ⟨2024, 2, 2, 12, 0, 0⟩ :=
  (C4_save_naming "report" "json" ⟨2024, 1, 1, 0, 0, 0⟩ ⟨2024, 2, 2, 12, 0, 0⟩
      (by decide) (by decide)).2.2 (by decide)

theorem readStore_write_eq (σ : Storage) (p : String) (b : Blob) :
    readStore (writeStore σ p b) p = some b := by
  simp [readStore, writeStore]

theorem readStore_write_ne (σ : Storage) (p q : String) (b : Blob)
    (h : p ≠ q) : readStore (writeStore σ p b) q = readStore σ q := by
  simp [readStore, writeStore, h]

theorem artifactPath_inj (base : String) (e : FExt) (withTs : Bool)
    (t : Timestamp) (k1 k2 : String)
    (h : artifactPath base e withTs t k1 = artifactPath base e withTs t k2) :
    k1 = k2 := by
  simp only [artifactPath] at h
  have hd := congrArg String.data h
  simp only [String.data_append] at hd
  have hd2 := List.append_cancel_left hd
  have hd3 := List.append_cancel_right hd2
  cases k1
  cases k2
  exact congrArg String.mk hd3

theorem encode_ok_eq (k : Kind) (e : FExt) (p : Payload) (b : Blob)
    (h : encode k e p = .ok b) : b = ⟨k, e, coercePayload p⟩ := by
  by_cases hs : supported k e = true
  · by_cases hv : validShape k e p = true
    · simp [encode, hs, hv] at h
      exact h.symm
    · simp [encode, hs, hv] at h
  · simp [encode, hs] at h

theorem saveArtifacts_ok (base : String) (e : FExt) (withTs : Bool)
    (t : Timestamp) (hs : supported .tabular e = true) :
    ∀ l : List (String × Payload),
      (∀ kp ∈ l, validShape .tabular e kp.2 = true) →
      ∀ σ, ∃ σ2 man, saveArtifacts base e withTs t l σ = .ok (σ2, man) := by
  intro l
  induction l with
  | nil => exact fun _ σ => ⟨σ, [], rfl⟩
  | cons kp rest ih =>
    intro hv σ
    obtain ⟨k, p⟩ := kp
    have hvp : validShape .tabular e p = true := hv (k, p) (by simp)
    have henc : encode .tabular e p = .ok ⟨.tabular, e, coercePayload p⟩ := by
      simp [encode, hs, hvp]
    obtain ⟨σ2, man, hrec⟩ :=
      ih (fun kp2 h2 => hv kp2 (List.mem_cons_of_mem _ h2))
        (writeStore σ (artifactPath base e withTs t k)
          ⟨.tabular, e, coercePayload p⟩)
    exact ⟨σ2, ⟨k, artifactPath base e withTs t k, e, t⟩ :: man,
      by simp [saveArtifacts, henc, hrec]⟩

theorem saveArtifacts_spec (base : String) (e : FExt) (withTs : Bool)
    (t : Timestamp) :
    ∀ (l : List (String × Payload)) (σ σ2 : Storage) (man : Manifest),
      saveArtifacts base e withTs t l σ = .ok (σ2, man) →
      man = l.map (fun kp =>
        (⟨kp.1, artifactPath base e withTs t kp.1, e, t⟩ : ManifestEntry)) ∧
      (∀ q, (∀ kp ∈ l, q ≠ artifactPath base e withTs t kp.1) →
        readStore σ2 q = readStore σ q) ∧
      ((l.map Prod.fst).Nodup →
        ∀ kp ∈ l, readStore σ2 (artifactPath base e withTs t kp.1) =
          some ⟨.tabular, e, coercePayload kp.2⟩) := by
  intro l
  induction l with
  | nil =>
    intro σ σ2 man h
    simp only [saveArtifacts] at h
    injection h with h
    injection h with h1 h2
    subst h1
    subst h2
    exact ⟨rfl, fun q _ => rfl, fun _ kp hkp => absurd hkp (by simp)⟩
  | cons kp rest ih =>
    intro σ σ2 man h
    obtain ⟨k, p⟩ := kp
    simp only [saveArtifacts] at h
    cases henc : encode .tabular e p with
    | error err => rw [henc] at h; cases h
    | ok b =>
      rw [henc] at h
      dsimp only at h
      cases hrec : saveArtifacts base e withTs t rest
          (writeStore σ (artifactPath base e withTs t k) b) with
      | error err => rw [hrec] at h; cases h
      | ok pr =>
        obtain ⟨σr, manr⟩ := pr
        rw [hrec] at h
        dsimp only at h
        injection h with h
        injection h with hσ hman
        obtain ⟨ihman, ihother, ihread⟩ := ih _ σr manr hrec
        have hb := encode_ok_eq _ _ _ _ henc
        subst hb
        refine ⟨?_, ?_, ?_⟩
        · rw [← hman, ihman]
          simp
        · intro q hq
          have hq_rest : ∀ kp2 ∈ rest,
              q ≠ artifactPath base e withTs t kp2.1 :=
            fun kp2 h2 => hq kp2 (List.mem_cons_of_mem _ h2)
          have hqk : q ≠ artifactPath base e withTs t k :=
            hq (k, p) (List.mem_cons_self _ _)
          rw [← hσ, ihother q hq_rest,
            readStore_write_ne σ _ q _ (fun hh => hqk hh.symm)]
        · intro hnd kp2 hkp2
          have hndr : (rest.map Prod.fst).Nodup := by
            simp only [List.map_cons, List.nodup_cons] at hnd
            exact hnd.2
          have hknotin : k ∉ rest.map Prod.fst := by
            simp only [List.map_cons, List.nodup_cons] at hnd
            exact hnd.1
          rcases List.mem_cons.mp hkp2 with hkp2h | hkp2r
          · subst hkp2h
            have hpaths : ∀ kp3 ∈ rest,
                artifactPath base e withTs t k ≠
                  artifactPath base e withTs t kp3.1 := by
              intro kp3 h3 heqp
              exact hknotin (artifactPath_inj base e withTs t k kp3.1 heqp ▸
                List.mem_map_of_mem Prod.fst h3)
            rw [← hσ, ihother _ hpaths, readStore_write_eq]
          · rw [← hσ]
            exact ihread hndr kp2 hkp2r

/-- Claim C3: loading from the metadata path produced by
`save_with_metadata` returns a mapping whose key list is exactly the
saved artifact names and whose values equal the originally saved payloads
(the payloads being in the plain representation, so the documented lossy
coercions are identities). -/
theorem C3_manifest_fidelity (named : List (String × Payload)) (base : String)
    (e : FExt) (withTs : Bool) (t : Timestamp) (σ : Storage)
    (ms : ManifestStore)
    (hn : (named.map Prod.fst).Nodup)
    (hs : supported .tabular e = true)
    (hv : ∀ kp ∈ named, validShape .tabular e kp.2 = true)
    (hp : ∀ kp ∈ named, payloadIsPlain kp.2 = true) :
    ∃ σ2 ms2 mpath,
      save_with_metadata named base e withTs t σ ms = .ok (σ2, ms2, mpath) ∧
      load_from_metadata ms2 σ2 mpath =
        .ok (named.map (fun kp => (kp.1, Except.ok kp.2))) := by
  obtain ⟨σ2, man, hsa⟩ := saveArtifacts_ok base e withTs t hs named hv σ
  refine ⟨σ2, (metadataPath base withTs t, man) :: ms,
    metadataPath base withTs t, by simp [save_with_metadata, hsa], ?_⟩
  obtain ⟨hman, hother, hread⟩ := saveArtifacts_spec base e withTs t named σ σ2 man hsa
  simp only [load_from_metadata, lookupManifest, if_pos]
  congr 1
  subst hman
  rw [List.map_map]
  apply List.map_congr_left
  intro kp hkp
  simp only [Function.comp]
  have hr := hread hn kp hkp
  simp only [loadArtifact, hr]
  simp [decode, hs, coercePayload_plain kp.2 (hp kp hkp)]

/-- Claim C3 witness: the round trip through the manifest at a concrete
two-artifact save. -/
theorem C3_manifest_fidelity_witness :
    ∃ σ2 ms2 mpath,
      save_with_metadata c3named "analysis" FExt.csv true
          ⟨2024, 1, 1, 0, 0, 0⟩ [] [] = .ok (σ2, ms2, mpath) ∧
      load_from_metadata ms2 σ2 mpath =
        .ok (c3named.map (fun kp => (kp.1, Except.ok kp.2))) :=
  C3_manifest_fidelity c3named "analysis" FExt.csv true ⟨2024, 1, 1, 0, 0, 0⟩
    [] [] (by decide) (by decide) (by decide) (by decide)

/-- Claim C5: for every stored manifest, `load_from_metadata` loads each
referenced artifact independently and returns the whole per-key mapping:
a key whose concrete file is missing (or fails to decode) is mapped to an
error marker while every other key still gets its loaded payload; the
call never aborts with a global error once the manifest is found. -/
theorem C5_partial_failure (ms : ManifestStore) (σ : Storage) (mpath : String)
    (man : Manifest) (hm : lookupManifest ms mpath = some man) :
    load_from_metadata ms σ mpath =
      .ok (man.map (fun en => (en.artifact, loadArtifact σ en))) ∧
    (∀ en ∈ man, readStore σ en.path = none →
      (en.artifact, (Except.error FUError.notFound : Except FUError Payload)) ∈
        man.map (fun en => (en.artifact, loadArtifact σ en))) ∧
    (∀ en ∈ man, ∀ b, readStore σ en.path = some b →
      (en.artifact, decode .tabular en.fext b) ∈
        man.map (fun en => (en.artifact, loadArtifact σ en))) := by
  refine ⟨by simp [load_from_metadata, hm], ?_, ?_⟩
  · intro en hen hnone
    have hl : loadArtifact σ en = .error .notFound := by
      simp [loadArtifact, hnone]
    have hmem := List.mem_map_of_mem
      (fun en => (en.artifact, loadArtifact σ en)) hen
    simpa [hl] using hmem
  · intro en hen b hb
    have hl : loadArtifact σ en = decode .tabular en.fext b := by
      simp [loadArtifact, hb]
    have hmem := List.mem_map_of_mem
      (fun en => (en.artifact, loadArtifact σ en)) hen
    simpa [hl] using hmem

/-- Claim C5 witness: with artifact `b`'s concrete file deleted, the load
still returns the payload for `a` and an error marker for `b`. -/
theorem C5_partial_failure_witness :
    load_from_metadata c5ms c5store "meta.json" =
      .ok [("a", Except.ok (Payload.table ⟨["x"], [[Scalar.num 1]]⟩)),
           ("b", Except.error FUError.notFound)] := by
  have h := (C5_partial_failure c5ms c5store "meta.json" c5man (by decide)).1
  rw [h]
  rfl

/-- Claim C6: when remote connectivity fails at construction time,
constructing the facade with the remote backend fails with the
connection error (`BackendUnavailable`); the constructor never yields a
facade at all in that case, and whenever it does succeed for the remote
backend the result really is remote-backed — there is no automatic
remote-to-local fallback at the backend level, only the caller-level
try/except pattern `callerFallback`. -/
theorem C6_no_silent_fallback :
    mkFileUtils .azure .failed = .error .backendUnavailable ∧
    (∀ conn, mkFileUtils .azure conn = .error .backendUnavailable ∨
      mkFileUtils .azure conn = .ok ⟨.azure⟩) ∧
    callerFallback .failed = .ok ⟨.localStorage⟩ ∧
    callerFallback .up = .ok ⟨.azure⟩ := by
  refine ⟨rfl, fun conn => ?_, rfl, rfl⟩
  cases conn
  · right; rfl
  · left; rfl

theorem retryLoop_transient {α : Type} (client : Nat → OpOutcome α)
    (hc : ∀ n, client n = .transient) (maxDelay : Nat) :
    ∀ fuel attempt delay,
      retryLoop client maxDelay fuel attempt delay =
        (.error .backendUnavailable, fuel,
         (List.range fuel).map (fun i => min (delay * 2 ^ i) maxDelay)) := by
  intro fuel
  induction fuel with
  | zero =>
    intro attempt delay
    simp [retryLoop, hc attempt]
  | succ f ih =>
    intro attempt delay
    rw [retryLoop, hc attempt]
    dsimp only
    rw [ih (attempt + 1) (delay * 2)]
    dsimp only
    have hl : min delay maxDelay ::
        (List.range f).map (fun i => min (delay * 2 * 2 ^ i) maxDelay) =
        (List.range (f + 1)).map (fun i => min (delay * 2 ^ i) maxDelay) := by
      rw [List.range_succ_eq_map, List.map_cons, List.map_map]
      congr 1
      · simp
      · apply List.map_congr_left
        intro i _
        have hx : delay * 2 * 2 ^ i = delay * 2 ^ (i + 1) := by ring
        simp [Function.comp, hx]
    rw [hl]

/-- Claim C7: a remote operation whose client always fails with a
transient-class error is retried exactly `max_retries` times, each
backoff delay being the doubled previous delay capped at `max_delay`,
and then fails with `BackendUnavailable`; a non-transient failure on the
first attempt propagates immediately with zero retries. -/
theorem C7_retry_policy {α : Type} (pol : RetryPolicy)
    (client : Nat → OpOutcome α) (e : FUError) :
    ((∀ n, client n = .transient) →
      runWithRetry pol client =
        (.error .backendUnavailable, pol.max_retries,
         (List.range pol.max_retries).map
           (fun i => min (pol.retry_delay * 2 ^ i) pol.max_delay)) ∧
      ∀ d ∈ (runWithRetry pol client).2.2, d ≤ pol.max_delay) ∧
    (client 0 = .permanent e →
      runWithRetry pol client = (.error e, 0, [])) := by
  constructor
  · intro hc
    have h := retryLoop_transient client hc pol.max_delay pol.max_retries 0
      pol.retry_delay
    refine ⟨h, ?_⟩
    rw [runWithRetry, h]
    intro d hd
    simp only [List.mem_map] at hd
    obtain ⟨i, -, hi⟩ := hd
    omega
  · intro hp
    cases hf : pol.max_retries with
    | zero => simp [runWithRetry, retryLoop, hp, hf]
    | succ f => simp [runWithRetry, retryLoop, hp, hf]

/-- Claim C7 witness: with the default policy (3 retries, base delay 1,
cap 30), an always-transient client performs exactly three retries with
delays 1, 2, 4 then fails with `BackendUnavailable`; an
authorization-style permanent failure propagates at once with zero
retries. -/
theorem C7_retry_policy_witness :
    runWithRetry ⟨3, 1, 30⟩ (fun _ => (OpOutcome.transient : OpOutcome Unit)) =
      (.error .backendUnavailable, 3, [1, 2, 4]) ∧
    runWithRetry ⟨3, 1, 30⟩
        (fun _ => (OpOutcome.permanent .validationError : OpOutcome Unit)) =
      (.error .validationError, 0, []) := by
  constructor
  · have h := ((C7_retry_policy ⟨3, 1, 30⟩
        (fun _ => (OpOutcome.transient : OpOutcome Unit))
        FUError.validationError).1 (fun _ => rfl)).1
    rw [h]
    rfl
  · exact (C7_retry_policy ⟨3, 1, 30⟩
        (fun _ => (OpOutcome.permanent .validationError : OpOutcome Unit))
        FUError.validationError).2 rfl

/-- Claim C8: a save or load call given both a `sub_path` and a file name
that itself contains a directory separator fails with the validation
error — the resolver, the save path and the load path all reject the
ambiguity rather than silently concatenating the two. -/
theorem C8_path_ambiguity (σ : Storage) (roleDir sp fileName : String)
    (b : Blob) (hsep : containsSep fileName = true) :
    resolvePath roleDir (some sp) fileName = .error .validationError ∧
    saveToStorage σ roleDir (some sp) fileName b =
      .error .validationError ∧
    loadFromPath σ roleDir (some sp) fileName = .error .validationError := by
  have hr : resolvePath roleDir (some sp) fileName =
      .error .validationError := by
    simp [resolvePath, hsep]
  refine ⟨hr, ?_, ?_⟩
  · rw [saveToStorage, hr]
  · rw [loadFromPath, hr]

/-- Claim C8 witness: a concrete ambiguous call is rejected. -/
theorem C8_path_ambiguity_witness :
    saveToStorage [] "data/raw" "sub" "dir/file.csv" (sampleBlob "x") =
      .error .validationError :=
  (C8_path_ambiguity [] "data/raw" "sub" "dir/file.csv" (sampleBlob "x")
    (by decide)).2.1

/-- Claim C9: the directory-role-to-path mapping fixed at construction is
preserved by every public operation — including `create_directory`, which
only extends the configured directory list — so the resolution of every
later save and load call is unchanged. -/
theorem C9_role_mapping_invariant (st : FUState) (op : FOp) :
    (applyOp st op).roleMap = st.roleMap ∧
    ∀ role, resolveRole (applyOp st op) role = resolveRole st role := by
  have h : (applyOp st op).roleMap = st.roleMap := by
    cases op <;> simp only [applyOp] <;> (repeat' split) <;> rfl
  exact ⟨h, fun role => by simp only [resolveRole, h]⟩

/-- Claim C10: saving a DataFrame whose columns form a MultiIndex in the
XLSX format succeeds (no error is raised): the MultiIndex labels are
flattened into single-level names, the stored blob holds the flattened
table, decoding it yields the flattened single-level labels (every column
label a plain string), not the original two-level labels. -/
theorem C10_multiindex_flatten (df : DFrame) (σ : Storage) (p : String) :
    ∃ σ2, save_data_to_storage_xlsx df σ p = .ok σ2 ∧
      readStore σ2 p =
        some ⟨.tabular, .xlsx, .table (coerceTable (flattenCols df))⟩ ∧
      decode .tabular .xlsx
          ⟨.tabular, .xlsx, .table (coerceTable (flattenCols df))⟩ =
        .ok (.table (coerceTable (flattenCols df))) ∧
      (coerceTable (flattenCols df)).cols = df.cols.map flattenLabel := by
  refine ⟨writeStore σ p ⟨.tabular, .xlsx, .table (coerceTable (flattenCols df))⟩,
    ?_, readStore_write_eq σ p _, by simp [decode, supported], rfl⟩
  simp [save_data_to_storage_xlsx, encode, supported, validShape, coercePayload]
